import Mathlib

/-!
Verification of the stain-area-calculator core (punto_4).

Shallow embedding of:
* `convertToBinary`, `generateRandomPoints` from
  `src/app/upload-image/upload-image.component.ts`;
* `overlayImage`, `getPointsInside`, `getResults`, `addResult` from
  `src/app/services/calculation.service.ts`.

Machine numbers are modelled exactly: JavaScript float arithmetic on the
small integer inputs of this program is modelled by exact rationals, and
`Number(x.toFixed(4))` by rounding half-up to 4 decimal places over ℚ.
-/

namespace StainArea

/-- An RGBA pixel sample, each channel in [0, 255]. -/
structure Rgba where
  r : ℕ
  g : ℕ
  b : ℕ
  a : ℕ
deriving DecidableEq

/-- `interface Point` of calculation.service.ts: x/y coordinates. -/
structure Point where
  x : ℤ
  y : ℤ
deriving DecidableEq

/-- An `HTMLImageElement` as the service reads it back from a canvas:
its dimensions plus the RGBA value that `drawImage` reproduces at each
in-bounds pixel coordinate. -/
structure Image where
  width : ℕ
  height : ℕ
  pix : ℕ → ℕ → Rgba

/-- The grayscale value `0.3 * R + 0.59 * G + 0.11 * B` computed in
`convertToBinary` (upload-image.component.ts line 85), in exact arithmetic. -/
def grayscale (r g b : ℕ) : ℚ :=
  3 / 10 * r + 59 / 100 * g + 11 / 100 * b

/-- `convertToBinary` (upload-image.component.ts lines 80-92): walks the flat
RGBA array four bytes at a time; each pixel becomes pure white when its
grayscale value is strictly above 128 and pure black otherwise, and the alpha
byte is set to 255.  `ImageData` buffers always have length `4 * width * height`,
so theorems assume the length is a multiple of 4. -/
def convertToBinary : List ℕ → List ℕ
  | r :: g :: b :: _a :: rest =>
    (if grayscale r g b > 128 then [255, 255, 255, 255] else [0, 0, 0, 255]) ++
      convertToBinary rest
  | rest => rest

/-- Groups a flat RGBA byte list into pixel quadruples. -/
def pixels4 : List ℕ → List (ℕ × ℕ × ℕ × ℕ)
  | r :: g :: b :: a :: rest => (r, g, b, a) :: pixels4 rest
  | _ => []

/-- Modelled from the spec: the per-pixel binarization contract of §4.1 —
compute luminance `L = 0.3*R + 0.59*G + 0.11*B`; if `L > 128` every color
channel of the output is 255, otherwise 0; the output alpha is 255
regardless of the source alpha. -/
def specBinarizePixel (q : ℕ × ℕ × ℕ × ℕ) : List ℕ :=
  let L : ℚ := 3 / 10 * q.1 + 59 / 100 * q.2.1 + 11 / 100 * q.2.2.1
  let v : ℕ := if L > 128 then 255 else 0
  [v, v, v, 255]

/-- `generateRandomPoints` (upload-image.component.ts lines 97-110): the loop
`for (let i = 0; i < n; i++)` pushes `{x: floor(random()*width),
y: floor(random()*height)}`.  `u k` models the k-th call to `Math.random()`
(a rational in `[0,1)` at runtime); for `n ≤ 0` the loop body never runs.
The function returns normally for every `n`; no error is thrown. -/
def generateRandomPoints (u : ℕ → ℚ) (n : ℤ) (width height : ℕ) : List Point :=
  (List.range n.toNat).map (fun i => ⟨⌊u (2 * i) * width⌋, ⌊u (2 * i + 1) * height⌋⟩)

/-- Modelled from the spec: §4.3 — each sampled point is drawn as a filled
disc of radius 4 with a 2-pixel stroked outline (painted region: a disc of
radius 5 around the point).  Under antialiased canvas rendering a pixel reads
back as exactly the marker color only when its unit square
`[x, x+1] × [y, y+1]` is fully covered, i.e. its farthest corner is within
distance 5 of the point.  Along each axis the farthest of the two corner
offsets is `max |x - px| |x + 1 - px|`, so full coverage is
`(max |x - px| |x + 1 - px|)^2 + (max |y - py| |y + 1 - py|)^2 ≤ 25`. -/
def coveredBy (p : Point) (x y : ℕ) : Bool :=
  decide (max (((x : ℤ) - p.x).natAbs) (((x : ℤ) + 1 - p.x).natAbs) ^ 2 +
    max (((y : ℤ) - p.y).natAbs) (((y : ℤ) + 1 - p.y).natAbs) ^ 2 ≤ 25)

/-- A pixel reads back as exactly marker red after all points are drawn when
some point's marker fully covers it. -/
def marked (points : List Point) (x y : ℕ) : Bool :=
  points.any (fun p => coveredBy p x y)

/-- The marker fill/stroke color `rgba(255, 0, 0)`, opaque. -/
def red255 : Rgba := ⟨255, 0, 0, 255⟩

/-- `overlayImage` (calculation.service.ts lines 121-146): draws the image on a
fresh canvas, captures `originalImageData`, then draws the red point markers
and captures `overlayImageData`.  Returned as (overlayImageData,
originalImageData), each a pixel lookup by coordinates. -/
def overlayImage (image : Image) (points : List Point) :
    (ℕ → ℕ → Rgba) × (ℕ → ℕ → Rgba) :=
  (fun x y => if marked points x y then red255 else image.pix x y, image.pix)

/-- Pixel test `data[i] === 0 && data[i+1] === 0 && data[i+2] === 0`. -/
def isBlack (c : Rgba) : Bool :=
  c.r == 0 && c.g == 0 && c.b == 0

/-- Pixel test `data[i] === 255 && data[i+1] === 0 && data[i+2] === 0`. -/
def isRed (c : Rgba) : Bool :=
  c.r == 255 && c.g == 0 && c.b == 0

/-- `getPointsInside` (calculation.service.ts lines 45-61): loops over every
pixel index of the buffers (byte index `i = 4*j`, pixel `j` at coordinates
`(j % width, j / width)`) and counts the pixels that are black in
`originalImageData` and red in `overlayImageData`.  Returns
(overlayImageData, pointsInside). -/
def getPointsInside (points : List Point) (image : Image) : (ℕ → ℕ → Rgba) × ℕ :=
  ((overlayImage image points).1,
   (List.range (image.width * image.height)).countP (fun j =>
     isBlack ((overlayImage image points).2 (j % image.width) (j / image.width)) &&
     isRed ((overlayImage image points).1 (j % image.width) (j / image.width))))

/-- `Number(x.toFixed(4))`: round half-up to 4 decimal places, over ℚ. -/
def round4 (x : ℚ) : ℚ :=
  (⌊x * 10000 + 1 / 2⌋ : ℚ) / 10000

/-- `interface CalculationResult` of calculation.service.ts. -/
structure CalculationResult where
  area : ℚ
  points : List Point
  originalImage : Image
  modifiedImage : ℕ → ℕ → Rgba

/-- `interface CalculationInput`; `image` is an Option because the service
checks `!data.image`. -/
structure CalculationInput where
  points : List Point
  image : Option Image

/-- `addResult` (calculation.service.ts lines 112-114):
`results.next([...results.value, result])` — append at the end. -/
def addResult (results : List CalculationResult) (result : CalculationResult) :
    List CalculationResult :=
  results ++ [result]

/-- `getResults` (calculation.service.ts lines 68-106), as a state transformer
on the `results` list: validation errors are thrown before any mutation;
on success the result is built and appended. -/
def getResults (results : List CalculationResult) (data : CalculationInput) :
    List CalculationResult × Except String CalculationResult :=
  match data.image with
  | none => (results, .error "Image is required for calculation")
  | some image =>
    if data.points.length < 3 then
      (results, .error "At least 3 points are required for calculation")
    else
      let totalArea : ℕ := image.width * image.height
      let gi := getPointsInside data.points image
      let totalPoints : ℕ := data.points.length
      let estimatedArea : ℚ := round4 ((totalArea : ℚ) * ((gi.2 : ℚ) / (totalPoints : ℚ)))
      let result : CalculationResult :=
        ⟨estimatedArea, data.points, image, gi.1⟩
      (addResult results result, .ok result)

/-- Extracts the estimated area from a `getResults` outcome (0 on error). -/
def resArea (e : Except String CalculationResult) : ℚ :=
  match e with
  | .ok r => r.area
  | .error _ => 0

/-- Whether an outcome is an error. -/
def isFailure {α : Type} (e : Except String α) : Bool :=
  match e with
  | .error _ => true
  | .ok _ => false

/-- Row-major pixel index of an in-bounds point. -/
def pixIndex (im : Image) (p : Point) : ℕ :=
  p.y.toNat * im.width + p.x.toNat

/-- A 10×10 image whose every pixel is pure black. -/
def blackImg10 : Image := ⟨10, 10, fun _ _ => ⟨0, 0, 0, 255⟩⟩

/-- Ten sampled points, all at (5, 5) (duplicates are permitted). -/
def pts10 : List Point := List.replicate 10 ⟨5, 5⟩

/-- A 4×4 image whose every pixel is (100, 100, 100): luminance 100 ≤ 128,
fully stained but not pure black. -/
def grayImg : Image := ⟨4, 4, fun _ _ => ⟨100, 100, 100, 255⟩⟩

/-- Three distinct in-bounds points. -/
def ptsG : List Point := [⟨0, 0⟩, ⟨1, 1⟩, ⟨2, 2⟩]

/-- A 4×4 all-black image. -/
def blackImg4 : Image := ⟨4, 4, fun _ _ => ⟨0, 0, 0, 255⟩⟩

/-- A throwaway result value. -/
def sampleResult : CalculationResult :=
  ⟨0, [], ⟨1, 1, fun _ _ => ⟨0, 0, 0, 255⟩⟩, fun _ _ => red255⟩

end StainArea

namespace StainArea

/-! ### Helper lemmas -/

/-- A white pixel stays white under a second binarization pass. -/
theorem convertToBinary_white (t : List ℕ) :
    convertToBinary (255 :: 255 :: 255 :: 255 :: t) =
      255 :: 255 :: 255 :: 255 :: convertToBinary t := by
  norm_num [convertToBinary, grayscale]

/-- A black pixel stays black under a second binarization pass. -/
theorem convertToBinary_black (t : List ℕ) :
    convertToBinary (0 :: 0 :: 0 :: 255 :: t) =
      0 :: 0 :: 0 :: 255 :: convertToBinary t := by
  norm_num [convertToBinary, grayscale]

/-- The counting loop of `getPointsInside` visits each of the
`width * height` pixel indices once, so the count is bounded by it. -/
theorem pointsInside_le (points : List Point) (image : Image) :
    (getPointsInside points image).2 ≤ image.width * image.height := by
  simp only [getPointsInside]
  exact (List.countP_le_length _).trans (by simp)

/-! ### Claims about the Binarizer -/

/-- Claim C4: binarization is a pure per-pixel function: the byte-quadruple
loop of `convertToBinary` equals mapping the spec's per-pixel rule
(luminance `0.3*R + 0.59*G + 0.11*B`; strictly above 128 gives 255 in every
color channel, otherwise 0; alpha forced to 255 regardless of source alpha)
over the pixel quadruples of the buffer. -/
theorem convertToBinary_per_pixel :
    ∀ d : List ℕ, d.length % 4 = 0 →
      convertToBinary d = (pixels4 d).flatMap specBinarizePixel
  | [], _ => rfl
  | [_], h => by simp at h
  | [_, _], h => by simp at h
  | [_, _, _], h => by simp at h
  | r :: g :: b :: a :: rest, h => by
    have hr : rest.length % 4 = 0 := by
      simp only [List.length_cons] at h
      omega
    have ih := convertToBinary_per_pixel rest hr
    by_cases hgt : (3 / 10 * (r : ℚ) + 59 / 100 * (g : ℚ) + 11 / 100 * (b : ℚ)) > 128
    · simp [convertToBinary, pixels4, specBinarizePixel, grayscale, hgt, ih]
    · simp [convertToBinary, pixels4, specBinarizePixel, grayscale, hgt, ih]

/-- Witness for C4 at a concrete two-pixel buffer. -/
theorem convertToBinary_per_pixel_witness :
    ([10, 200, 30, 7, 255, 255, 255, 0] : List ℕ).length % 4 = 0 ∧
    convertToBinary [10, 200, 30, 7, 255, 255, 255, 0] =
      (pixels4 [10, 200, 30, 7, 255, 255, 255, 0]).flatMap specBinarizePixel :=
  ⟨by decide, convertToBinary_per_pixel _ (by decide)⟩

/-- Claim C5, counterexample: a pixel whose luminance is exactly 128
(for instance (128,128,128)) is binarized to 0 (stain), not to the
background value 255 claimed by the spec. -/
theorem boundary_pixel_cex :
    grayscale 128 128 128 = 128 ∧
    convertToBinary [128, 128, 128, 77] = [0, 0, 0, 255] ∧
    convertToBinary [128, 128, 128, 77] ≠ [255, 255, 255, 255] := by
  refine ⟨by norm_num [grayscale], ?_, ?_⟩
  · norm_num [convertToBinary, grayscale]
  · norm_num [convertToBinary, grayscale]

/-- Claim C5 (amended): a pixel whose luminance is exactly 128 is treated as
stain — every color channel of the output is 0 — because the comparison
`grayscale > 128` is strict. -/
theorem boundary_pixel_is_stain (r g b a : ℕ) (t : List ℕ)
    (h : grayscale r g b = 128) :
    convertToBinary (r :: g :: b :: a :: t) = 0 :: 0 :: 0 :: 255 :: convertToBinary t := by
  simp [convertToBinary, h]

/-- Witness for the amended C5 at the pixel (128, 128, 128). -/
theorem boundary_pixel_is_stain_witness :
    grayscale 128 128 128 = 128 ∧
    convertToBinary [128, 128, 128, 9] = [0, 0, 0, 255] := by
  have h : grayscale 128 128 128 = 128 := by norm_num [grayscale]
  refine ⟨h, ?_⟩
  rw [boundary_pixel_is_stain 128 128 128 9 [] h]
  rfl

/-- Claim C6: binarization is idempotent — binarizing an already-binarized
buffer returns it unchanged. -/
theorem convertToBinary_idempotent :
    ∀ d : List ℕ, d.length % 4 = 0 →
      convertToBinary (convertToBinary d) = convertToBinary d
  | [], _ => rfl
  | [_], h => by simp at h
  | [_, _], h => by simp at h
  | [_, _, _], h => by simp at h
  | r :: g :: b :: a :: rest, h => by
    have hr : rest.length % 4 = 0 := by
      simp only [List.length_cons] at h
      omega
    have ih := convertToBinary_idempotent rest hr
    by_cases hgt : grayscale r g b > 128
    · rw [show convertToBinary (r :: g :: b :: a :: rest) =
          255 :: 255 :: 255 :: 255 :: convertToBinary rest from by
        simp [convertToBinary, hgt]]
      rw [convertToBinary_white, ih]
    · rw [show convertToBinary (r :: g :: b :: a :: rest) =
          0 :: 0 :: 0 :: 255 :: convertToBinary rest from by
        simp [convertToBinary, hgt]]
      rw [convertToBinary_black, ih]

/-- Witness for C6 at a concrete one-pixel buffer. -/
theorem convertToBinary_idempotent_witness :
    ([10, 200, 30, 7] : List ℕ).length % 4 = 0 ∧
    convertToBinary (convertToBinary [10, 200, 30, 7]) =
      convertToBinary [10, 200, 30, 7] :=
  ⟨by decide, convertToBinary_idempotent _ (by decide)⟩

/-! ### Claims about validation and the result log -/

/-- Claim C7: `getResults` fails exactly when the image is absent or fewer
than 3 points are supplied, and on any such error the results list is left
in its previous state (the throws happen before `addResult`). -/
theorem getResults_validation (st : List CalculationResult) (data : CalculationInput) :
    (isFailure (getResults st data).2 = true ↔
      data.image = none ∨ data.points.length < 3) ∧
    (isFailure (getResults st data).2 = true → (getResults st data).1 = st) := by
  cases himg : data.image with
  | none => simp [getResults, isFailure, himg]
  | some im =>
    by_cases hp : data.points.length < 3
    · simp [getResults, isFailure, himg, hp]
    · simp [getResults, isFailure, himg, hp]

/-- Witness for C7: a missing image errors and leaves an empty log empty. -/
theorem getResults_validation_witness :
    isFailure (getResults [] ⟨[], none⟩).2 = true ∧
    (getResults [] (⟨[], none⟩ : CalculationInput)).1 = [] :=
  ⟨(getResults_validation [] ⟨[], none⟩).1.mpr (Or.inl rfl),
   (getResults_validation [] ⟨[], none⟩).2
     ((getResults_validation [] ⟨[], none⟩).1.mpr (Or.inl rfl))⟩

/-- Claim C8, counterexample: requesting a negative number of points returns
the empty sample plan — a normal return value, not an `InvalidSampleCount`
error (the source contains no such error; the loop body simply never runs). -/
theorem generateRandomPoints_cex :
    generateRandomPoints (fun _ => 1 / 2) (-1) 10 10 = [] := rfl

/-- Claim C8 (amended): for every requested count `n < 1`, point sampling
returns the empty list without raising any error. -/
theorem generateRandomPoints_small (u : ℕ → ℚ) (n : ℤ) (w h : ℕ) (hn : n < 1) :
    generateRandomPoints u n w h = [] := by
  have h0 : n.toNat = 0 := by omega
  simp [generateRandomPoints, h0]

/-- Witness for the amended C8 at `n = 0`. -/
theorem generateRandomPoints_small_witness :
    (0 : ℤ) < 1 ∧ generateRandomPoints (fun _ => 1 / 2) 0 5 5 = [] :=
  ⟨by decide, generateRandomPoints_small (fun _ => 1 / 2) 0 5 5 (by decide)⟩

/-- Claim C9: `addResult` appends at the end of the list: the length grows by
one, every previously stored result keeps its value and position, and the new
result sits at the old length (the service offers no removal or edit of
entries — `addResult` is its only mutation). -/
theorem addResult_appends (st : List CalculationResult) (r : CalculationResult) :
    (addResult st r).length = st.length + 1 ∧
    (∀ i, i < st.length → (addResult st r)[i]? = st[i]?) ∧
    (addResult st r)[st.length]? = some r := by
  refine ⟨by simp [addResult], fun i hi => ?_, ?_⟩
  · simp [addResult, List.getElem?_append_left hi]
  · simp [addResult, List.getElem?_concat_length]

/-- Witness for C9 on a one-element log. -/
theorem addResult_appends_witness :
    (addResult [sampleResult] sampleResult)[0]? = some sampleResult ∧
    (addResult [sampleResult] sampleResult)[1]? = some sampleResult := by
  refine ⟨?_, ?_⟩
  · have h := (addResult_appends [sampleResult] sampleResult).2.1 0 (by simp)
    simpa using h
  · have h := (addResult_appends [sampleResult] sampleResult).2.2
    simpa using h

/-- Claim C10: `pointsInside` is bounded by the number of pixels
`width * height` — the counting loop visits each pixel index once and
increments at most once per pixel. -/
theorem pointsInside_le_totalPixels (points : List Point) (image : Image) :
    (getPointsInside points image).2 ≤ image.width * image.height :=
  pointsInside_le points image

end StainArea

namespace StainArea

/-! ### Helper lemmas for the area-estimation claims -/

/-- An in-bounds point's row-major pixel index is within the pixel range. -/
theorem pixIndex_lt (im : Image) (p : Point)
    (hx : p.x.toNat < im.width) (hy : p.y.toNat < im.height) :
    pixIndex im p < im.width * im.height := by
  rw [pixIndex]
  calc p.y.toNat * im.width + p.x.toNat
      < p.y.toNat * im.width + im.width := Nat.add_lt_add_left hx _
    _ = (p.y.toNat + 1) * im.width := by ring
    _ ≤ im.height * im.width := Nat.mul_le_mul_right _ hy
    _ = im.width * im.height := Nat.mul_comm _ _

/-- The x coordinate recovered from a pixel index. -/
theorem pixIndex_mod (im : Image) (p : Point) (hx : p.x.toNat < im.width) :
    pixIndex im p % im.width = p.x.toNat := by
  rw [pixIndex, Nat.mul_comm, Nat.mul_add_mod, Nat.mod_eq_of_lt hx]

/-- The y coordinate recovered from a pixel index. -/
theorem pixIndex_div (im : Image) (p : Point) (hx : p.x.toNat < im.width) :
    pixIndex im p / im.width = p.y.toNat := by
  rw [pixIndex, Nat.mul_comm, Nat.mul_add_div (by omega), Nat.div_eq_of_lt hx, Nat.add_zero]

/-- A point's marker covers the point's own pixel. -/
theorem coveredBy_self (p : Point) (hx : 0 ≤ p.x) (hy : 0 ≤ p.y) :
    coveredBy p p.x.toNat p.y.toNat = true := by
  rw [coveredBy, decide_eq_true_eq, Int.toNat_of_nonneg hx, Int.toNat_of_nonneg hy]
  have e1 : p.x + 1 - p.x = 1 := by ring
  have e2 : p.y + 1 - p.y = 1 := by ring
  rw [sub_self, sub_self, e1, e2]
  norm_num

/-- On valid input, the value stored in the result's `area` field is the
rounded `totalArea * pointsInside / totalPoints`. -/
theorem resArea_eq (st : List CalculationResult) (pts : List Point) (im : Image)
    (hlt : ¬ pts.length < 3) :
    resArea (getResults st ⟨pts, some im⟩).2 =
      round4 (((im.width * im.height : ℕ) : ℚ) *
        (((getPointsInside pts im).2 : ℚ) / ((pts.length : ℕ) : ℚ))) := by
  simp only [getResults, resArea]
  rw [if_neg hlt]

/-! ### Claims about the area estimation -/

/-- Claim C1, counterexample: on the valid input "10×10 all-black image with
ten in-bounds points at (5,5)" the loop counts marker-covered pixels, not
sampled points, so `pointsInside` exceeds `totalPoints = 10` and the
estimated area exceeds `totalArea = 100`. -/
theorem pointsInside_area_bounds_cex :
    pts10.length = 10 ∧
    10 < (getPointsInside pts10 blackImg10).2 ∧
    blackImg10.width * blackImg10.height = 100 ∧
    (100 : ℚ) < resArea (getResults [] ⟨pts10, some blackImg10⟩).2 := by
  have hcnt : (getPointsInside pts10 blackImg10).2 = 60 := by decide
  refine ⟨by decide, by rw [hcnt]; norm_num, by decide, ?_⟩
  rw [resArea_eq [] pts10 blackImg10 (by decide), hcnt,
    (by decide : pts10.length = 10), (by decide : blackImg10.width * blackImg10.height = 100)]
  norm_num [round4]

/-- Claim C1 (amended): for every valid input, `0 ≤ pointsInside ≤ totalArea`
(the pixel count `width * height`, not `totalPoints`) and
`0 ≤ estimatedArea ≤ totalArea ^ 2` (the claimed bound `totalArea` fails
because each marker disc covers many pixels). -/
theorem pointsInside_area_bounds (st : List CalculationResult) (pts : List Point)
    (im : Image) (h3 : 3 ≤ pts.length) :
    (getPointsInside pts im).2 ≤ im.width * im.height ∧
    0 ≤ resArea (getResults st ⟨pts, some im⟩).2 ∧
    resArea (getResults st ⟨pts, some im⟩).2 ≤ ((im.width * im.height : ℕ) : ℚ) ^ 2 := by
  have hple := pointsInside_le pts im
  have hlt : ¬ pts.length < 3 := by omega
  have hres := resArea_eq st pts im hlt
  have hA0 : (0 : ℚ) ≤ ((im.width * im.height : ℕ) : ℚ) := Nat.cast_nonneg _
  have hp0 : (0 : ℚ) ≤ (((getPointsInside pts im).2 : ℕ) : ℚ) := Nat.cast_nonneg _
  have hpA : (((getPointsInside pts im).2 : ℕ) : ℚ) ≤ ((im.width * im.height : ℕ) : ℚ) := by
    exact_mod_cast hple
  have hN3 : (3 : ℚ) ≤ ((pts.length : ℕ) : ℚ) := by exact_mod_cast h3
  have hNpos : (0 : ℚ) < ((pts.length : ℕ) : ℚ) := by linarith
  set A : ℚ := ((im.width * im.height : ℕ) : ℚ) with hA
  set pq : ℚ := (((getPointsInside pts im).2 : ℕ) : ℚ) with hpq
  set N : ℚ := ((pts.length : ℕ) : ℚ) with hN
  have hx0 : 0 ≤ A * (pq / N) := mul_nonneg hA0 (div_nonneg hp0 (le_of_lt hNpos))
  refine ⟨hple, ?_, ?_⟩
  · rw [hres, round4]
    apply div_nonneg _ (by norm_num)
    have hfl : (0 : ℤ) ≤ ⌊A * (pq / N) * 10000 + 1 / 2⌋ :=
      Int.floor_nonneg.mpr (by linarith)
    exact_mod_cast hfl
  · rw [hres]
    have hub : round4 (A * (pq / N)) ≤ A * (pq / N) + 1 / 20000 := by
      rw [round4]
      have h1 : ((⌊A * (pq / N) * 10000 + 1 / 2⌋ : ℤ) : ℚ) ≤ A * (pq / N) * 10000 + 1 / 2 :=
        Int.floor_le _
      linarith
    have hxa : A * (pq / N) ≤ A * (A / 3) :=
      mul_le_mul_of_nonneg_left (div_le_div₀ hA0 hpA (by norm_num) hN3) hA0
    rcases Nat.eq_zero_or_pos (im.width * im.height) with hz | hpos
    · have hAz : A = 0 := by rw [hA, hz]; norm_num
      have hpz : pq = 0 := le_antisymm (hAz ▸ hpA) hp0
      have hxz : A * (pq / N) = 0 := by rw [hAz, hpz]; ring
      rw [hxz] at hub ⊢
      rw [hAz]
      have hr0 : round4 0 = 0 := by norm_num [round4]
      rw [hr0]
      norm_num
    · have hA1 : (1 : ℚ) ≤ A := by rw [hA]; exact_mod_cast hpos
      nlinarith [hub, hxa, hA1]

/-- Witness for the amended C1 on a concrete valid input. -/
theorem pointsInside_area_bounds_witness :
    (getPointsInside pts10 blackImg10).2 ≤ blackImg10.width * blackImg10.height ∧
    0 ≤ resArea (getResults [] ⟨pts10, some blackImg10⟩).2 ∧
    resArea (getResults [] ⟨pts10, some blackImg10⟩).2 ≤
      ((blackImg10.width * blackImg10.height : ℕ) : ℚ) ^ 2 :=
  pointsInside_area_bounds [] pts10 blackImg10 (by decide)

/-- Claim C2, counterexample: for the 10×10 all-black image with ten
in-bounds points (all at (5,5)), `pointsInside` is not 10 and the estimated
area is not 100 — the spec's concrete scenario does not hold of the code. -/
theorem scenario10_cex :
    pts10.length = 10 ∧
    blackImg10.width * blackImg10.height = 100 ∧
    (getPointsInside pts10 blackImg10).2 ≠ 10 ∧
    resArea (getResults [] ⟨pts10, some blackImg10⟩).2 ≠ 100 := by
  have hcnt : (getPointsInside pts10 blackImg10).2 = 60 := by decide
  refine ⟨by decide, by decide, by rw [hcnt]; norm_num, ?_⟩
  rw [resArea_eq [] pts10 blackImg10 (by decide), hcnt,
    (by decide : pts10.length = 10), (by decide : blackImg10.width * blackImg10.height = 100)]
  norm_num [round4]

/-- Claim C2 (amended): for the 10×10 all-black image with ten points at
(5,5), `totalArea = 100` as claimed, but `pointsInside` is the number of
pixels covered by the drawn markers and black in the original — strictly
more than the ten sampled points, since a marker disc covers several
pixels — and the estimated area equals
`totalArea * pointsInside / totalPoints`, which exceeds 100. -/
theorem scenario10_values :
    blackImg10.width * blackImg10.height = 100 ∧
    10 < (getPointsInside pts10 blackImg10).2 ∧
    resArea (getResults [] ⟨pts10, some blackImg10⟩).2 =
      round4 ((100 : ℚ) * (((getPointsInside pts10 blackImg10).2 : ℚ) / 10)) ∧
    (100 : ℚ) < resArea (getResults [] ⟨pts10, some blackImg10⟩).2 := by
  have hcnt : (getPointsInside pts10 blackImg10).2 = 60 := by decide
  have hkey : resArea (getResults [] ⟨pts10, some blackImg10⟩).2 =
      round4 ((100 : ℚ) * (((getPointsInside pts10 blackImg10).2 : ℚ) / 10)) := by
    rw [resArea_eq [] pts10 blackImg10 (by decide),
      (by decide : pts10.length = 10), (by decide : blackImg10.width * blackImg10.height = 100)]
    norm_num
  refine ⟨by decide, by rw [hcnt]; norm_num, hkey, ?_⟩
  rw [hkey, hcnt]
  norm_num [round4]

/-- Claim C3, counterexample: a 4×4 image whose every pixel is (100,100,100)
has luminance 100 ≤ 128 everywhere (fully stained), yet with three in-bounds
points the estimation yields `pointsInside = 0 ≠ 3 = totalPoints` and
`estimatedArea = 0 ≠ 16 = totalArea`: the estimator does not binarize the
image before classifying; it matches pure black (0,0,0) only. -/
theorem fullyStained_cex :
    grayImg.pix 0 0 = ⟨100, 100, 100, 255⟩ ∧
    grayscale 100 100 100 ≤ 128 ∧
    ptsG.length = 3 ∧
    (getPointsInside ptsG grayImg).2 = 0 ∧
    (getPointsInside ptsG grayImg).2 ≠ ptsG.length ∧
    grayImg.width * grayImg.height = 16 ∧
    resArea (getResults [] ⟨ptsG, some grayImg⟩).2 = 0 := by
  have hcnt : (getPointsInside ptsG grayImg).2 = 0 := by decide
  refine ⟨rfl, by norm_num [grayscale], by decide, hcnt, by decide, by decide, ?_⟩
  rw [resArea_eq [] ptsG grayImg (by decide), hcnt]
  norm_num [round4]

/-- Claim C3 (amended): the estimator matches pure-black pixels directly
(binarization happens upstream, in the upload component).  For an image whose
every pixel is already pure black and any `N ≥ 3` distinct in-bounds points,
`pointsInside` is at least `totalPoints` — each point's marker covers at
least its own pixel — but equality fails in general because a marker covers
several pixels. -/
theorem allBlack_pointsInside_ge (im : Image) (pts : List Point)
    (_h3 : 3 ≤ pts.length)
    (hb : ∀ x y, x < im.width → y < im.height → im.pix x y = ⟨0, 0, 0, 255⟩)
    (hnd : pts.Nodup)
    (hin : ∀ p ∈ pts, 0 ≤ p.x ∧ p.x < (im.width : ℤ) ∧ 0 ≤ p.y ∧ p.y < (im.height : ℤ)) :
    pts.length ≤ (getPointsInside pts im).2 := by
  simp only [getPointsInside]
  rw [List.countP_eq_length_filter]
  have hinj : ∀ p ∈ pts, ∀ q ∈ pts, pixIndex im p = pixIndex im q → p = q := by
    intro p hp q hq e
    obtain ⟨hpx0, hpxw, hpy0, hpyh⟩ := hin p hp
    obtain ⟨hqx0, hqxw, hqy0, hqyh⟩ := hin q hq
    have hpx : p.x.toNat < im.width := by omega
    have hqx : q.x.toNat < im.width := by omega
    have ex : p.x.toNat = q.x.toNat := by
      rw [← pixIndex_mod im p hpx, ← pixIndex_mod im q hqx, e]
    have ey : p.y.toNat = q.y.toNat := by
      rw [← pixIndex_div im p hpx, ← pixIndex_div im q hqx, e]
    have hx' : p.x = q.x := by omega
    have hy' : p.y = q.y := by omega
    cases p; cases q; simp_all
  have hnodup : (pts.map (pixIndex im)).Nodup := List.Nodup.map_on hinj hnd
  have hsub : pts.map (pixIndex im) ⊆
      (List.range (im.width * im.height)).filter (fun j =>
        isBlack ((overlayImage im pts).2 (j % im.width) (j / im.width)) &&
        isRed ((overlayImage im pts).1 (j % im.width) (j / im.width))) := by
    intro j hj
    obtain ⟨p, hp, rfl⟩ := List.mem_map.mp hj
    obtain ⟨hpx0, hpxw, hpy0, hpyh⟩ := hin p hp
    have hpx : p.x.toNat < im.width := by omega
    have hpy : p.y.toNat < im.height := by omega
    refine List.mem_filter.mpr ⟨List.mem_range.mpr (pixIndex_lt im p hpx hpy), ?_⟩
    have hmarked : marked pts p.x.toNat p.y.toNat = true :=
      List.any_eq_true.mpr ⟨p, hp, coveredBy_self p hpx0 hpy0⟩
    rw [pixIndex_mod im p hpx, pixIndex_div im p hpx]
    simp only [overlayImage, hb p.x.toNat p.y.toNat hpx hpy, hmarked, if_true]
    rfl
  calc pts.length = (pts.map (pixIndex im)).length := (List.length_map _ _).symm
    _ ≤ _ := List.Subperm.length_le (List.subperm_of_subset hnodup hsub)

/-- Witness for the amended C3 on a 4×4 all-black image with three distinct
in-bounds points. -/
theorem allBlack_pointsInside_ge_witness :
    3 ≤ ptsG.length ∧ ptsG.length ≤ (getPointsInside ptsG blackImg4).2 :=
  ⟨by decide, allBlack_pointsInside_ge blackImg4 ptsG (by decide) (fun _ _ _ _ => rfl)
    (by decide) (by decide)⟩

end StainArea
